import Mathlib

/-!
Shallow embedding of the retrieval pipeline of `src/app.py` (a Streamlit
RAG question-answering app): document chunking, per-file synchronization
into a keyed vector collection, context assembly with source
deduplication, and the fixed instruction-prompt template.

Python strings are modelled as `List Char` where slicing arithmetic
matters (document content) and as `String` where only concatenation and
equality matter (identifiers, labels, the prompt).  The vector collection
is modelled extensionally as a map from chunk id to the stored
(document, metadata-source) pair; embedding vectors are owned by the
store and never observed by the program, so they are not modelled.
-/

set_option maxRecDepth 4000

namespace App

/-- Constant `chunk_size = 800` from `load_files_to_db`. -/
def chunk_size : Nat := 800

/-- Constant `overlap = 150` from `load_files_to_db`. -/
def overlap : Nat := 150

/-- Fuel-driven loop of Python `range(start, stop, stepSz)` for a positive
step: emits `start` while `start < stop`, advancing by `stepSz`. -/
def rangeCore : Nat → Nat → Nat → Nat → List Nat
  | 0, _, _, _ => []
  | fuel+1, start, stop, stepSz =>
    if start < stop then start :: rangeCore fuel (start + stepSz) stop stepSz
    else []

/-- Python `range(start, stop, stepSz)` for `stepSz > 0`.  With a positive
step the loop runs at most `stop - start` times, so that is enough fuel. -/
def pyRange (start stop stepSz : Nat) : List Nat :=
  rangeCore (stop - start) start stop stepSz

/-- Chunk id format of `load_files_to_db`: the filename, the marker, then the decimal offset. -/
def chunkId (filename : String) (i : Nat) : String :=
  filename ++ "_part_" ++ Nat.repr i

/-- Python slice `content[i : i + chunk_size]`. -/
def chunkAt (content : List Char) (i : Nat) : List Char :=
  (content.drop i).take chunk_size

/-- One `collection.upsert` call: id, document text, metadata source. -/
structure Upsert where
  id : String
  doc : List Char
  source : String
deriving DecidableEq

/-- The chunking loop of `load_files_to_db`:
`for i in range(0, len(content), chunk_size - overlap)` producing the
slice `content[i : i + chunk_size]` under the chunk id of offset `i`. -/
def fileChunks (filename : String) (content : List Char) : List Upsert :=
  (pyRange 0 content.length (chunk_size - overlap)).map fun i =>
    ⟨chunkId filename i, chunkAt content i, filename⟩

/-- Result of `page.extract_text()` for one PDF page: either a text
(possibly empty, skipped by the `if text:` guard) or a raised exception. -/
inductive PageRead where
  | ok (text : List Char)
  | exn (msg : String)
deriving DecidableEq

/-- A directory entry as the synchronizer sees it: its filename plus the
outcomes of the two collaborator calls the code can make on it
(`open(...).read()` for `.txt`, `PdfReader(...).pages` for `.pdf`).
Only the branch selected by the extension of the filename is ever consulted. -/
structure SrcFile where
  name : String
  txtRead : Except String (List Char)
  pdfPages : Except String (List PageRead)

/-- The PDF page loop of `load_files_to_db`:
`for page in reader.pages: text = page.extract_text(); if text: content += text + "\n"`,
inside a `try`.  A raising page aborts the loop with the exception, but the
content accumulated so far is kept (the `except` does not reset `content`). -/
def pdfLoop : List PageRead → List Char → List Char × Option String
  | [], content => (content, none)
  | PageRead.ok t :: rest, content =>
    if t = [] then pdfLoop rest content
    else pdfLoop rest (content ++ (t ++ ['\n']))
  | PageRead.exn e :: _, content => (content, some e)

/-- Python `str.endswith(pat)`, as a computation on the character
sequences of the two strings. -/
def strEndsWith (s pat : String) : Bool :=
  pat.data.isSuffixOf s.data

/-- Extension dispatch plus `try/except` of `load_files_to_db`: the
extracted `content` for one file together with the sidebar error message
if an exception was caught. -/
def extractContent (f : SrcFile) : List Char × Option String :=
  if strEndsWith f.name ".txt" then
    match f.txtRead with
    | Except.ok s => (s, none)
    | Except.error e => ([], some (f.name ++ " 읽기 실패: " ++ e))
  else if strEndsWith f.name ".pdf" then
    match f.pdfPages with
    | Except.ok pages =>
      match pdfLoop pages [] with
      | (content, some e) => (content, some (f.name ++ " PDF 읽기 실패: " ++ e))
      | (content, none) => (content, none)
    | Except.error e => ([], some (f.name ++ " PDF 읽기 실패: " ++ e))
  else ([], none)

/-- The persistent collection, observed extensionally: each chunk id maps
to the stored (document, metadata-source) pair, or to nothing. -/
def Collection := String → Option (List Char × String)

/-- Model of one `collection.upsert(documents, metadatas, ids)` call:
insert-or-overwrite at the given id. -/
def upsert (idx : Collection) (u : Upsert) : Collection :=
  fun k => if k = u.id then some (u.doc, u.source) else idx k

/-- A collection with no entries. -/
def emptyCollection : Collection := fun _ => none

/-- The upserts one file contributes in a pass: the `if content:` guard
followed by the chunking loop. -/
def fileUpserts (f : SrcFile) : List Upsert :=
  if (extractContent f).1 = [] then []
  else fileChunks f.name (extractContent f).1

/-- The body of the per-file loop of `load_files_to_db`: extract, report
any caught error, and when `content` is non-empty upsert every chunk. -/
def processFile (idx : Collection) (f : SrcFile) : Collection × List String :=
  let r := extractContent f
  let errs : List String := match r.2 with
    | some e => [e]
    | none => []
  let idx2 := if r.1 = [] then idx else (fileChunks f.name r.1).foldl upsert idx
  (idx2, errs)

/-- The status string `load_files_to_db` returns unconditionally. -/
def syncMessage : String := "✨ 모든 로컬 문서(PDF/TXT) 동기화 완료!"

/-- Function `load_files_to_db`: iterate the directory listing, process each file,
and return the updated collection, the sidebar error reports in order,
and the overall success status. -/
def load_files_to_db (idx : Collection) (files : List SrcFile) :
    Collection × List String × String :=
  let r := files.foldl
    (fun (acc : Collection × List String) f =>
      let p := processFile acc.1 f
      (p.1, acc.2 ++ p.2))
    (idx, ([] : List String))
  (r.1, r.2, syncMessage)

/-- Index part of a pass, without the error bookkeeping. -/
def syncCollection (idx : Collection) (files : List SrcFile) : Collection :=
  files.foldl (fun i f => (processFile i f).1) idx

/-- All ids written during a pass, in write order per file. -/
def passIds (files : List SrcFile) : List String :=
  files.foldr (fun f acc => (fileUpserts f).map (fun u => u.id) ++ acc) []

/-- Labeled context block built by the chat handler loop: an opening
bracket, the source name, a closing bracket, a colon, then the text. -/
def formatBlock (doc source : String) : String :=
  "[" ++ source ++ "]: " ++ doc

/-- Model of Python `list(set(xs))` for strings.  The Python set iteration
order is implementation-defined (stable within one process run); the
model fixes first-occurrence order.  Only order-insensitive facts
(membership, distinctness, cardinality) are proved about it. -/
def pySetList (l : List String) : List String :=
  l.foldl (fun acc m => if m ∈ acc then acc else acc ++ [m]) []

/-- The context-assembly section of the chat handler: the
`formatted_contexts` accumulation loop over `zip(contexts, metadatas)`,
the blank-line join, and the `list(set(...))` over the source names. -/
def buildContext (contexts metadatas : List String) : String × List String :=
  let formatted := (contexts.zip metadatas).foldl
    (fun acc p => acc ++ [formatBlock p.1 p.2]) []
  (String.intercalate "\n\n" formatted, pySetList metadatas)

/-- The decline instruction the prompt template carries verbatim. -/
def declineMsg : String := "제공된 문서 내에서 관련 정보를 찾을 수 없습니다"

/-- Prompt template text before the context-text slot. -/
def promptP1 : String :=
  "\n            너는 전문 지식 비서야. [참고 문헌]을 바탕으로 질문에 답해줘.\n            IT 지식을 모두 활용하고, 반드시 출처를 밝혀줘.\n            그리고 너의 의견으로 하지말고 반드시 data폴더 안의 txt, pdf 파일 기반으로 답변을 해줘\n            그리고 반드시 출처를 밝혀줘 어떤 txt, pdf 파일을 참고했는지를 말해줘\n            답변에는 한자가 나오지 않도록 해주십시오.\n\n            [지시 사항]:\n            1. 너의 주관적인 의견은 배제하고, 반드시 제공된 [참고 문헌]의 내용을 기반으로 답변해.\n            2. 답변 과정에서 어떤 파일(txt, pdf)을 참고했는지 명확히 언급해.\n            3. [참고 문헌]에 질문과 관련된 내용이 없으면 \"제공된 문서 내에서 관련 정보를 찾을 수 없습니다\"라고 정중히 답해.\n\n            [참고 문헌]:\n            "

/-- Prompt template text between the context-text and query slots. -/
def promptP2 : String := "\n\n            [질문]: "

/-- Prompt template text after the query slot. -/
def promptP3 : String := "\n\n            답변:\n            "

/-- The f-string prompt of the chat handler as a function of its two slots. -/
def buildPrompt (context_text query : String) : String :=
  promptP1 ++ context_text ++ promptP2 ++ query ++ promptP3

/-- Size of the intersection of the character ranges `[a, a + lenA)` and
`[b, b + lenB)` (0 when they are disjoint). -/
def spanOverlap (a lenA b lenB : Nat) : Nat :=
  min (a + lenA) (b + lenB) - max a b

/-- Text of `promptP1` up to and including the quote that opens the
decline instruction. -/
def promptP1a : String :=
  "\n            너는 전문 지식 비서야. [참고 문헌]을 바탕으로 질문에 답해줘.\n            IT 지식을 모두 활용하고, 반드시 출처를 밝혀줘.\n            그리고 너의 의견으로 하지말고 반드시 data폴더 안의 txt, pdf 파일 기반으로 답변을 해줘\n            그리고 반드시 출처를 밝혀줘 어떤 txt, pdf 파일을 참고했는지를 말해줘\n            답변에는 한자가 나오지 않도록 해주십시오.\n\n            [지시 사항]:\n            1. 너의 주관적인 의견은 배제하고, 반드시 제공된 [참고 문헌]의 내용을 기반으로 답변해.\n            2. 답변 과정에서 어떤 파일(txt, pdf)을 참고했는지 명확히 언급해.\n            3. [참고 문헌]에 질문과 관련된 내용이 없으면 \""

/-- Text of `promptP1` from the quote that closes the decline instruction on. -/
def promptP1b : String :=
  "\"라고 정중히 답해.\n\n            [참고 문헌]:\n            "

/-- A PDF whose first page yields text and whose second page raises. -/
def badPdf : SrcFile :=
  ⟨"bad.pdf", Except.error "unused", Except.ok [PageRead.ok ['h', 'i'], PageRead.exn "boom"]⟩

/-- A text file whose read raises. -/
def badTxt : SrcFile := ⟨"bad.txt", Except.error "없음", Except.ok []⟩

/-- A one-character text file that reads successfully. -/
def newTxt : SrcFile := ⟨"new.txt", Except.ok ['a'], Except.ok []⟩

/-- A pre-existing index entry belonging to a file no longer on disk. -/
def oldEntry : Upsert := ⟨"old.txt_part_0", ['x'], "old.txt"⟩

/-- The claimed chunk-count formula, modelled verbatim from the spec
sentence "number of chunks = `ceil(max(L - overlap, 0) / (chunk_size -
overlap))` when L > 0, else 0", for comparison against the code. -/
def specChunkCount (L : Nat) : Nat :=
  if L = 0 then 0
  else (max (L - overlap) 0 + (chunk_size - overlap) - 1) / (chunk_size - overlap)

/-- The last write a list of upserts makes to key `k`, if any. -/
def lastVal : List Upsert → String → Option (List Char × String)
  | [], _ => none
  | u :: rest, k =>
    match lastVal rest k with
    | some v => some v
    | none => if k = u.id then some (u.doc, u.source) else none

/-- All upserts of a pass, in the order they are issued. -/
def allUpserts : List SrcFile → List Upsert
  | [] => []
  | f :: rest => fileUpserts f ++ allUpserts rest

/-- The sidebar error reports of a pass, in the order they are emitted. -/
def syncErrors : Collection → List SrcFile → List String
  | _, [] => []
  | idx, f :: rest => (processFile idx f).2 ++ syncErrors (processFile idx f).1 rest

/-- UTF-8 byte length of a character sequence, used to compare the claimed
"byte offset" in chunk ids against the character offset the code embeds. -/
def utf8Len : List Char → Nat
  | [] => 0
  | c :: l => c.utf8Size + utf8Len l

/-- Decimal digit characters of `n`, most significant first (`['0']` for 0):
the closed form of what `Nat.toDigitsCore` produces. -/
def decChars (n : Nat) : List Char :=
  if n = 0 then ['0'] else ((Nat.digits 10 n).map Nat.digitChar).reverse

/-! ### The chunk-offset list `range(0, len(content), 650)` -/

theorem stepVal : chunk_size - overlap = 650 := rfl

theorem rangeCore_eq_range' :
    ∀ (fuel start stop stepSz : Nat), 0 < stepSz → stop - start ≤ fuel →
      rangeCore fuel start stop stepSz
        = List.range' start ((stop - start + stepSz - 1) / stepSz) stepSz := by
  intro fuel
  induction fuel with
  | zero =>
    intro start stop stepSz hs hf
    have h2 : (stop - start + stepSz - 1) / stepSz = 0 := Nat.div_eq_of_lt (by omega)
    rw [h2]
    rfl
  | succ fuel ih =>
    intro start stop stepSz hs hf
    by_cases h : start < stop
    · have hkey : (stop - start + stepSz - 1) / stepSz = (stop - start - 1) / stepSz + 1 := by
        have he : stop - start + stepSz - 1 = (stop - start - 1) + stepSz := by omega
        rw [he, Nat.add_div_right _ hs]
      have hn' : (stop - (start + stepSz) + stepSz - 1) / stepSz
          = (stop - start - 1) / stepSz := by
        by_cases hc : stop - start ≤ stepSz
        · have e1 : stop - (start + stepSz) + stepSz - 1 = stepSz - 1 := by omega
          rw [e1, Nat.div_eq_of_lt (by omega), Nat.div_eq_of_lt (by omega)]
        · have e1 : stop - (start + stepSz) + stepSz - 1 = stop - start - 1 := by omega
          rw [e1]
      have hstep : rangeCore (fuel + 1) start stop stepSz
          = start :: rangeCore fuel (start + stepSz) stop stepSz := by
        simp [rangeCore, h]
      rw [hstep, ih (start + stepSz) stop stepSz hs (by omega), hn', hkey]
      rfl
    · have hstep : rangeCore (fuel + 1) start stop stepSz = [] := by
        simp [rangeCore, h]
      have h2 : (stop - start + stepSz - 1) / stepSz = 0 := Nat.div_eq_of_lt (by omega)
      rw [hstep, h2]
      rfl

theorem pyRange_eq_range' (start stop stepSz : Nat) (hs : 0 < stepSz) :
    pyRange start stop stepSz
      = List.range' start ((stop - start + stepSz - 1) / stepSz) stepSz :=
  rangeCore_eq_range' (stop - start) start stop stepSz hs (Nat.le_refl _)

theorem chunkStarts_eq (L : Nat) :
    pyRange 0 L (chunk_size - overlap) = List.range' 0 ((L + 649) / 650) 650 := by
  rw [stepVal, pyRange_eq_range' 0 L 650 (by norm_num),
    show L - 0 + 650 - 1 = L + 649 from by omega]

theorem mem_chunkStarts {L i : Nat} :
    i ∈ pyRange 0 L (chunk_size - overlap) ↔ i % 650 = 0 ∧ i < L := by
  rw [chunkStarts_eq, List.mem_range']
  constructor
  · rintro ⟨k, hk, rfl⟩
    have h2 : (k + 1) * 650 ≤ L + 649 :=
      (Nat.le_div_iff_mul_le (by norm_num)).mp hk
    constructor
    · omega
    · omega
  · rintro ⟨hmod, hlt⟩
    refine ⟨i / 650, ?_, by omega⟩
    exact (Nat.le_div_iff_mul_le (by norm_num)).mpr (by omega)

theorem fileChunks_length (name : String) (content : List Char) :
    (fileChunks name content).length = (content.length + 649) / 650 := by
  rw [fileChunks, List.length_map, chunkStarts_eq, List.length_range']

theorem chunkAt_length (content : List Char) (i : Nat) :
    (chunkAt content i).length = min chunk_size (content.length - i) := by
  simp [chunkAt]

theorem fileChunks_get (name : String) (content : List Char) (k : Nat)
    (hk : k < (fileChunks name content).length) :
    (fileChunks name content).get ⟨k, hk⟩
      = ⟨chunkId name (650 * k), chunkAt content (650 * k), name⟩ := by
  simp only [List.get_eq_getElem, fileChunks, chunkStarts_eq, List.getElem_map,
    List.getElem_range', Nat.zero_add]

/-! ### Injectivity of `Nat.repr`, hence of chunk ids in the offset -/

theorem toDigitsCore_eq_decChars :
    ∀ (fuel n : Nat) (l : List Char), n < fuel →
      Nat.toDigitsCore 10 fuel n l = decChars n ++ l := by
  intro fuel
  induction fuel with
  | zero => intro n l h; omega
  | succ fuel ih =>
    intro n l h
    have unfold1 : Nat.toDigitsCore 10 (fuel + 1) n l
        = if n / 10 = 0 then Nat.digitChar (n % 10) :: l
          else Nat.toDigitsCore 10 fuel (n / 10) (Nat.digitChar (n % 10) :: l) := rfl
    rw [unfold1]
    by_cases h10 : n / 10 = 0
    · rw [if_pos h10]
      have hn10 : n < 10 := by omega
      by_cases h0 : n = 0
      · subst h0
        simp only [decChars, if_pos rfl]
        rfl
      · have hd : Nat.digits 10 n = [n] := Nat.digits_of_lt 10 n h0 hn10
        simp [decChars, h0, hd, Nat.mod_eq_of_lt hn10]
    · rw [if_neg h10]
      have hn0 : n ≠ 0 := by omega
      have hdiv : n / 10 < fuel := by omega
      rw [ih (n / 10) _ hdiv]
      have hd : Nat.digits 10 n = n % 10 :: Nat.digits 10 (n / 10) :=
        Nat.digits_def' (by norm_num) (Nat.pos_of_ne_zero hn0)
      simp [decChars, hn0, h10, hd]

theorem repr_eq_decChars (n : Nat) : Nat.repr n = (decChars n).asString := by
  rw [Nat.repr, Nat.toDigits,
    toDigitsCore_eq_decChars (n + 1) n [] (Nat.lt_succ_self n), List.append_nil]

theorem digitChar_injOn :
    ∀ a < 10, ∀ b < 10, Nat.digitChar a = Nat.digitChar b → a = b := by
  decide

theorem map_digitChar_inj :
    ∀ l1 l2 : List Nat, (∀ d ∈ l1, d < 10) → (∀ d ∈ l2, d < 10) →
      l1.map Nat.digitChar = l2.map Nat.digitChar → l1 = l2 := by
  intro l1
  induction l1 with
  | nil =>
    intro l2 _ _ h
    cases l2 with
    | nil => rfl
    | cons b t => simp at h
  | cons a t ih =>
    intro l2 h1 h2 h
    cases l2 with
    | nil => simp at h
    | cons b t2 =>
      simp only [List.map_cons, List.cons.injEq] at h
      have hab : a = b := digitChar_injOn a (h1 a (by simp)) b (h2 b (by simp)) h.1
      subst hab
      rw [ih t2 (fun d hd => h1 d (by simp [hd])) (fun d hd => h2 d (by simp [hd])) h.2]

theorem decChars_inj : ∀ m n : Nat, decChars m = decChars n → m = n := by
  have key : ∀ n : Nat, n ≠ 0 → decChars n ≠ ['0'] := by
    intro n hn hcon
    simp only [decChars, if_neg hn] at hcon
    have h2 : (Nat.digits 10 n).map Nat.digitChar = ['0'] := by
      have := congrArg List.reverse hcon
      simpa using this
    have h3 : Nat.digits 10 n = [0] := by
      apply map_digitChar_inj _ [0]
        (fun d hd => Nat.digits_lt_base (by norm_num) hd) (by simp)
      simpa using h2
    have h4 := Nat.ofDigits_digits 10 n
    rw [h3] at h4
    simp [Nat.ofDigits] at h4
    exact hn h4.symm
  intro m n h
  by_cases hm : m = 0 <;> by_cases hn : n = 0
  · rw [hm, hn]
  · exact absurd h.symm (by simpa [decChars, hm] using key n hn)
  · exact absurd h (by simpa [decChars, hn] using key m hm)
  · simp only [decChars, if_neg hm, if_neg hn] at h
    have h2 : (Nat.digits 10 m).map Nat.digitChar = (Nat.digits 10 n).map Nat.digitChar := by
      have := congrArg List.reverse h
      simpa using this
    have h3 := map_digitChar_inj _ _
      (fun d hd => Nat.digits_lt_base (by norm_num) hd)
      (fun d hd => Nat.digits_lt_base (by norm_num) hd) h2
    exact Nat.digits_inj_iff.mp h3

theorem nat_repr_inj {m n : Nat} (h : Nat.repr m = Nat.repr n) : m = n := by
  apply decChars_inj
  rw [repr_eq_decChars, repr_eq_decChars] at h
  exact List.asString_inj.mp h

theorem chunkId_inj (name : String) {i j : Nat}
    (h : chunkId name i = chunkId name j) : i = j := by
  apply nat_repr_inj
  have hd := congrArg String.data h
  simp only [chunkId, String.data_append, List.append_assoc] at hd
  exact String.ext (List.append_cancel_left (List.append_cancel_left hd))

/-! ### The collection under sequences of upserts -/

theorem foldl_upsert_eq (us : List Upsert) (idx : Collection) (k : String) :
    us.foldl upsert idx k
      = match lastVal us k with
        | some v => some v
        | none => idx k := by
  induction us generalizing idx with
  | nil => rfl
  | cons u rest ih =>
    rw [List.foldl_cons, ih (upsert idx u)]
    cases hrest : lastVal rest k with
    | some v => simp [lastVal, hrest]
    | none =>
      simp only [lastVal, hrest]
      by_cases h : k = u.id
      · simp [upsert, h]
      · simp [upsert, h]

theorem lastVal_eq_none (us : List Upsert) (k : String)
    (h : k ∉ us.map (fun u => u.id)) : lastVal us k = none := by
  induction us with
  | nil => rfl
  | cons u rest ih =>
    simp only [List.map_cons, List.mem_cons, not_or] at h
    simp [lastVal, ih h.2, h.1]

theorem foldl_upsert_not_mem (us : List Upsert) (idx : Collection) (k : String)
    (h : k ∉ us.map (fun u => u.id)) : us.foldl upsert idx k = idx k := by
  rw [foldl_upsert_eq, lastVal_eq_none us k h]

theorem foldl_upsert_idem (us : List Upsert) (idx : Collection) :
    us.foldl upsert (us.foldl upsert idx) = us.foldl upsert idx := by
  funext k
  rw [foldl_upsert_eq]
  cases h : lastVal us k with
  | some v => rw [foldl_upsert_eq, h]
  | none => rfl

theorem processFile_fst (idx : Collection) (f : SrcFile) :
    (processFile idx f).1 = (fileUpserts f).foldl upsert idx := by
  rw [processFile, fileUpserts]
  by_cases h : (extractContent f).1 = []
  · simp [h]
  · simp [h]

theorem syncCollection_cons (idx : Collection) (f : SrcFile) (rest : List SrcFile) :
    syncCollection idx (f :: rest) = syncCollection (processFile idx f).1 rest := by
  simp only [syncCollection, List.foldl_cons]

theorem load_loop (files : List SrcFile) :
    ∀ (idx : Collection) (acc : List String),
      files.foldl
          (fun (acc : Collection × List String) f =>
            let p := processFile acc.1 f
            (p.1, acc.2 ++ p.2))
          (idx, acc)
        = (syncCollection idx files, acc ++ syncErrors idx files) := by
  induction files with
  | nil =>
    intro idx acc
    simp [syncCollection, syncErrors]
  | cons f rest ih =>
    intro idx acc
    rw [List.foldl_cons]
    show rest.foldl _ ((processFile idx f).1, acc ++ (processFile idx f).2) = _
    rw [ih (processFile idx f).1 (acc ++ (processFile idx f).2)]
    rw [syncCollection_cons]
    rw [show syncErrors idx (f :: rest)
        = (processFile idx f).2 ++ syncErrors (processFile idx f).1 rest from rfl]
    rw [List.append_assoc]

theorem load_eq (idx : Collection) (files : List SrcFile) :
    load_files_to_db idx files
      = (syncCollection idx files, syncErrors idx files, syncMessage) := by
  unfold load_files_to_db
  rw [load_loop files idx []]
  simp

theorem syncCollection_eq_foldl (files : List SrcFile) :
    ∀ idx : Collection, syncCollection idx files = (allUpserts files).foldl upsert idx := by
  induction files with
  | nil => intro idx; rfl
  | cons f rest ih =>
    intro idx
    rw [syncCollection_cons]
    rw [ih (processFile idx f).1, processFile_fst,
      show allUpserts (f :: rest) = fileUpserts f ++ allUpserts rest from rfl,
      List.foldl_append]

/-! ### Context assembly -/

theorem formatLoop_eq (l : List (String × String)) :
    ∀ acc : List String,
      l.foldl (fun acc p => acc ++ [formatBlock p.1 p.2]) acc
        = acc ++ l.map (fun p => formatBlock p.1 p.2) := by
  induction l with
  | nil => intro acc; simp
  | cons p rest ih =>
    intro acc
    rw [List.foldl_cons, ih (acc ++ [formatBlock p.1 p.2])]
    simp

theorem pySetList_mem (l : List String) (x : String) : x ∈ pySetList l ↔ x ∈ l := by
  suffices h : ∀ acc : List String,
      x ∈ l.foldl (fun acc m => if m ∈ acc then acc else acc ++ [m]) acc
        ↔ x ∈ acc ∨ x ∈ l by
    simpa [pySetList] using h []
  induction l with
  | nil => intro acc; simp
  | cons m rest ih =>
    intro acc
    rw [List.foldl_cons]
    by_cases hm : m ∈ acc
    · rw [if_pos hm, ih acc]
      constructor
      · rintro (h | h)
        · exact Or.inl h
        · exact Or.inr (List.mem_cons_of_mem _ h)
      · rintro (h | h)
        · exact Or.inl h
        · rcases List.mem_cons.mp h with rfl | h2
          · exact Or.inl hm
          · exact Or.inr h2
    · rw [if_neg hm, ih (acc ++ [m])]
      simp only [List.mem_append, List.mem_cons, List.mem_singleton]
      tauto

theorem pySetList_nodup (l : List String) : (pySetList l).Nodup := by
  suffices h : ∀ acc : List String, acc.Nodup →
      (l.foldl (fun acc m => if m ∈ acc then acc else acc ++ [m]) acc).Nodup by
    exact h [] List.nodup_nil
  induction l with
  | nil => intro acc h; exact h
  | cons m rest ih =>
    intro acc h
    rw [List.foldl_cons]
    by_cases hm : m ∈ acc
    · rw [if_pos hm]
      exact ih acc h
    · rw [if_neg hm]
      apply ih
      simp [List.nodup_append, h, hm]

/-! ### Remaining helper lemmas -/

theorem utf8Len_replicate (c : Char) : ∀ n, utf8Len (List.replicate n c) = n * c.utf8Size := by
  intro n
  induction n with
  | zero => simp [List.replicate, utf8Len]
  | succ n ih =>
    rw [List.replicate_succ]
    show c.utf8Size + utf8Len (List.replicate n c) = (n + 1) * c.utf8Size
    rw [ih, Nat.succ_mul, Nat.add_comm]

theorem lastVal_of_mem :
    ∀ (us : List Upsert) (u : Upsert),
      (us.map (fun v => v.id)).Nodup → u ∈ us →
      lastVal us u.id = some (u.doc, u.source) := by
  intro us
  induction us with
  | nil =>
    intro u _ hu
    cases hu
  | cons v rest ih =>
    intro u hnd hu
    simp only [List.map_cons, List.nodup_cons] at hnd
    rcases List.mem_cons.mp hu with rfl | hmem
    · have hnone : lastVal rest u.id = none := lastVal_eq_none rest u.id hnd.1
      simp [lastVal, hnone]
    · have h2 := ih u hnd.2 hmem
      simp [lastVal, h2]

theorem passIds_eq (files : List SrcFile) :
    passIds files = (allUpserts files).map (fun u => u.id) := by
  induction files with
  | nil => rfl
  | cons f rest ih =>
    show (fileUpserts f).map (fun u => u.id) ++ passIds rest = _
    rw [ih, show allUpserts (f :: rest) = fileUpserts f ++ allUpserts rest from rfl,
      List.map_append]

theorem promptP1_split : promptP1 = promptP1a ++ (declineMsg ++ promptP1b) := by
  decide

/-! ### C1: chunk-count formula -/

/-- C1 counterexample: at the example length L = 2000 used by the spec the code
produces 4 chunks, at offsets 0, 650, 1300 and 1950, while the claimed
formula `ceil(max(L - overlap, 0) / (chunk_size - overlap))` yields 3. -/
theorem c1_chunk_count_counterexample :
    (fileChunks "notes.txt" (List.replicate 2000 'a')).length = 4 ∧
    pyRange 0 2000 (chunk_size - overlap) = [0, 650, 1300, 1950] ∧
    specChunkCount 2000 = 3 := by
  refine ⟨?_, ?_, by decide⟩
  · rw [fileChunks_length, List.length_replicate]
  · rw [chunkStarts_eq]
    decide

/-- C1 amended: for every document text of length L the number of chunks
produced is `ceil(L / (chunk_size - overlap))` = `ceil(L / 650)` (which is
0 when L = 0); in particular a text of length 2000 yields exactly 4
chunks, at offsets 0, 650, 1300 and 1950. -/
theorem c1_chunk_count :
    (∀ (name : String) (content : List Char),
      (fileChunks name content).length
        = (content.length + (chunk_size - overlap) - 1) / (chunk_size - overlap)) ∧
    pyRange 0 2000 (chunk_size - overlap) = [0, 650, 1300, 1950] := by
  constructor
  · intro name content
    rw [stepVal, show content.length + 650 - 1 = content.length + 649 from by omega,
      fileChunks_length]
  · rw [chunkStarts_eq]
    decide

/-! ### C4: chunk length, coverage and overlap -/

/-- C4: every chunk has length ≤ `chunk_size`; the chunk ranges cover
exactly `[0, L)`; and every chunk that has both a predecessor and a
successor overlaps its predecessor by exactly `overlap` characters. -/
theorem c4_chunk_coverage (name : String) (content : List Char) :
    (∀ u ∈ fileChunks name content, u.doc.length ≤ chunk_size) ∧
    (∀ k, k < content.length →
      ∃ i ∈ pyRange 0 content.length (chunk_size - overlap),
        i ≤ k ∧ k < i + (chunkAt content i).length) ∧
    (∀ i ∈ pyRange 0 content.length (chunk_size - overlap),
      ∀ k, i ≤ k → k < i + (chunkAt content i).length → k < content.length) ∧
    (∀ a, a % (chunk_size - overlap) = 0 →
      (a + 2 * (chunk_size - overlap)) ∈ pyRange 0 content.length (chunk_size - overlap) →
      spanOverlap a (chunkAt content a).length
        (a + (chunk_size - overlap)) (chunkAt content (a + (chunk_size - overlap))).length
        = overlap) := by
  refine ⟨?_, ?_, ?_, ?_⟩
  · intro u hu
    rw [fileChunks] at hu
    obtain ⟨i, _, rfl⟩ := List.mem_map.mp hu
    rw [chunkAt_length]
    exact Nat.min_le_left _ _
  · intro k hk
    refine ⟨650 * (k / 650), ?_, ?_, ?_⟩
    · rw [mem_chunkStarts]
      omega
    · omega
    · rw [chunkAt_length]
      simp only [chunk_size]
      omega
  · intro i hi k h1 h2
    rw [mem_chunkStarts] at hi
    rw [chunkAt_length] at h2
    simp only [chunk_size] at h2
    omega
  · intro a ha hmem
    rw [mem_chunkStarts] at hmem
    rw [stepVal] at ha hmem ⊢
    simp only [spanOverlap, chunkAt_length, chunk_size, overlap]
    omega

/-- C4 witness at the 2000-character document: position 1999 is covered,
and the chunk at 650 overlaps the chunk at 0 by exactly 150. -/
theorem c4_chunk_coverage_witness :
    (∀ u ∈ fileChunks "n.txt" (List.replicate 2000 'a'), u.doc.length ≤ chunk_size) ∧
    (∃ i ∈ pyRange 0 (List.replicate 2000 'a' : List Char).length (chunk_size - overlap),
      i ≤ 1999 ∧ 1999 < i + (chunkAt (List.replicate 2000 'a') i).length) ∧
    spanOverlap 0 (chunkAt (List.replicate 2000 'a') 0).length
      (0 + (chunk_size - overlap))
      (chunkAt (List.replicate 2000 'a') (0 + (chunk_size - overlap))).length
      = overlap := by
  have h := c4_chunk_coverage "n.txt" (List.replicate 2000 'a')
  refine ⟨h.1, h.2.1 1999 (by rw [List.length_replicate]; omega), h.2.2.2 0 (by decide) ?_⟩
  rw [mem_chunkStarts, List.length_replicate]
  decide

/-! ### C5: chunk id format -/

/-- C5 counterexample: the id embeds the Python string (character) offset,
not the byte offset of the chunk start in the extracted text.  For a
651-character text of the 3-byte character '한', the second chunk starts
at byte offset 1950, but its id is `"a.txt_part_650"`, not
`"a.txt_part_1950"`. -/
theorem c5_chunk_id_counterexample :
    ((fileChunks "a.txt" (List.replicate 651 '한')).map (fun u => u.id))
      = [chunkId "a.txt" 0, chunkId "a.txt" 650] ∧
    chunkId "a.txt" 650 = "a.txt_part_650" ∧
    utf8Len ((List.replicate 651 '한').take 650) = 1950 ∧
    ("a.txt_part_650" : String) ≠ "a.txt_part_1950" := by
  refine ⟨?_, by decide, ?_, by decide⟩
  · rw [fileChunks, List.map_map,
      show (List.replicate 651 '한' : List Char).length = 651 from List.length_replicate ..,
      chunkStarts_eq]
    decide
  · rw [show (List.replicate 651 '한').take 650 = List.replicate 650 '한' from by
        rw [List.take_replicate]; rfl,
      utf8Len_replicate]
    decide

/-- C5 amended: the upsert id of the k-th chunk is the filename followed by
the marker followed by the decimal rendering of its starting
character offset `650 * k` in the extracted text — a deterministic
function of (filename, offset) alone. -/
theorem c5_chunk_id (name : String) (content : List Char) (k : Nat)
    (hk : k < (fileChunks name content).length) :
    ((fileChunks name content).get ⟨k, hk⟩).id
      = name ++ "_part_" ++ Nat.repr ((chunk_size - overlap) * k) := by
  rw [fileChunks_get]
  show chunkId name (650 * k) = _
  rw [chunkId, stepVal]

/-- C5 witness: the fourth chunk of a 2000-character `notes.txt` has id
`notes.txt_part_1950`. -/
theorem c5_chunk_id_witness :
    ∃ hk : 3 < (fileChunks "notes.txt" (List.replicate 2000 'a')).length,
      ((fileChunks "notes.txt" (List.replicate 2000 'a')).get ⟨3, hk⟩).id
        = "notes.txt" ++ "_part_" ++ Nat.repr ((chunk_size - overlap) * 3) := by
  have hk : 3 < (fileChunks "notes.txt" (List.replicate 2000 'a')).length := by
    rw [fileChunks_length, List.length_replicate]
    decide
  exact ⟨hk, c5_chunk_id "notes.txt" (List.replicate 2000 'a') 3 hk⟩

/-! ### C10: ids within one file are pairwise distinct -/

/-- C10: the chunk ids generated for a single file are pairwise distinct,
so after the upsert loop of the file every chunk is present in the collection
under its own key — no chunk overwrites another chunk of the same file. -/
theorem c10_distinct_ids (name : String) (content : List Char) :
    ((fileChunks name content).map (fun u => u.id)).Nodup ∧
    (∀ (idx : Collection) (u : Upsert), u ∈ fileChunks name content →
      ((fileChunks name content).foldl upsert idx) u.id = some (u.doc, u.source)) := by
  have hnodup : ((fileChunks name content).map (fun u => u.id)).Nodup := by
    rw [fileChunks, List.map_map]
    have hcomp : ((fun u : Upsert => u.id) ∘ fun i =>
        (⟨chunkId name i, chunkAt content i, name⟩ : Upsert)) = chunkId name := rfl
    rw [hcomp, chunkStarts_eq]
    apply List.Nodup.map
    · intro i j hij
      exact chunkId_inj name hij
    · exact List.nodup_range' 0 _ 650 (by norm_num)
  refine ⟨hnodup, ?_⟩
  intro idx u hu
  rw [foldl_upsert_eq, lastVal_of_mem (fileChunks name content) u hnodup hu]

/-- C10 witness: a two-character text file yields one chunk, found intact
under its own id after the upsert loop. -/
theorem c10_distinct_ids_witness :
    ((fileChunks "a.txt" ['h', 'i']).map (fun u => u.id)).Nodup ∧
    ((fileChunks "a.txt" ['h', 'i']).foldl upsert emptyCollection)
        (Upsert.mk "a.txt_part_0" ['h', 'i'] "a.txt").id
      = some ((Upsert.mk "a.txt_part_0" ['h', 'i'] "a.txt").doc,
          (Upsert.mk "a.txt_part_0" ['h', 'i'] "a.txt").source) := by
  have h := c10_distinct_ids "a.txt" ['h', 'i']
  exact ⟨h.1, h.2 emptyCollection (Upsert.mk "a.txt_part_0" ['h', 'i'] "a.txt") (by decide)⟩

/-! ### C2: per-file error recovery -/

/-- C2 counterexample: a PDF whose extraction raises after one page has
already yielded text is NOT skipped — the error is reported, yet the
partially accumulated content is chunked and indexed. -/
theorem c2_skip_counterexample :
    (load_files_to_db emptyCollection [badPdf]).2.1
      = ["bad.pdf PDF 읽기 실패: boom"] ∧
    (load_files_to_db emptyCollection [badPdf]).1 (chunkId "bad.pdf" 0)
      = some (['h', 'i', '\n'], "bad.pdf") := by
  constructor
  · decide
  · decide

/-- C2 amended: a `.txt` file whose read raises, or a PDF whose open
raises, is reported and contributes nothing; a PDF whose page extraction
raises is reported but keeps the chunks of the text accumulated before
the failure.  In every case synchronization continues with the remaining
files and returns the overall success status string. -/
theorem c2_per_file_recovery :
    (∀ (idx : Collection) (f : SrcFile) (e : String),
      strEndsWith f.name ".txt" = true → f.txtRead = Except.error e →
      processFile idx f = (idx, [f.name ++ " 읽기 실패: " ++ e])) ∧
    (∀ (idx : Collection) (f : SrcFile) (e : String),
      strEndsWith f.name ".txt" = false → strEndsWith f.name ".pdf" = true →
      f.pdfPages = Except.error e →
      processFile idx f = (idx, [f.name ++ " PDF 읽기 실패: " ++ e])) ∧
    (∀ (idx : Collection) (f : SrcFile) (rest : List SrcFile),
      load_files_to_db idx (f :: rest)
        = ((load_files_to_db (processFile idx f).1 rest).1,
           (processFile idx f).2 ++ (load_files_to_db (processFile idx f).1 rest).2.1,
           syncMessage)) ∧
    (∀ (idx : Collection) (files : List SrcFile),
      (load_files_to_db idx files).2.2 = syncMessage) := by
  refine ⟨?_, ?_, ?_, ?_⟩
  · intro idx f e h1 h2
    have hex : extractContent f = ([], some (f.name ++ " 읽기 실패: " ++ e)) := by
      simp [extractContent, h1, h2]
    simp [processFile, hex]
  · intro idx f e h1 h2 h3
    have hex : extractContent f = ([], some (f.name ++ " PDF 읽기 실패: " ++ e)) := by
      simp [extractContent, h1, h2, h3]
    simp [processFile, hex]
  · intro idx f rest
    rw [load_eq, load_eq, syncCollection_cons,
      show syncErrors idx (f :: rest)
        = (processFile idx f).2 ++ syncErrors (processFile idx f).1 rest from rfl]
  · intro idx files
    rw [load_eq]

/-- C2 witness: a failing `.txt` read is reported and contributes
nothing, and a sync pass over it still returns the success status. -/
theorem c2_per_file_recovery_witness :
    processFile emptyCollection badTxt
      = (emptyCollection, ["bad.txt" ++ " 읽기 실패: " ++ "없음"]) ∧
    (load_files_to_db emptyCollection [badTxt]).2.2 = syncMessage := by
  have h := c2_per_file_recovery
  exact ⟨h.1 emptyCollection badTxt "없음" (by decide) rfl,
    h.2.2.2 emptyCollection [badTxt]⟩

/-! ### C3: idempotent re-sync -/

/-- C3: synchronizing the same unchanged files twice leaves the
collection extensionally identical (hence with identical entries) to
synchronizing once — upsert by deterministic id is a no-op on unchanged
input. -/
theorem c3_idempotent_resync (idx : Collection) (files : List SrcFile) :
    (load_files_to_db (load_files_to_db idx files).1 files).1
      = (load_files_to_db idx files).1 := by
  simp only [load_eq]
  simp only [syncCollection_eq_foldl]
  exact foldl_upsert_idem _ _

/-- C3 witness: re-syncing a concrete one-file directory is a no-op. -/
theorem c3_idempotent_resync_witness :
    (load_files_to_db (load_files_to_db emptyCollection [newTxt]).1 [newTxt]).1
      = (load_files_to_db emptyCollection [newTxt]).1 :=
  c3_idempotent_resync emptyCollection [newTxt]

/-! ### C6: empty extracted content -/

/-- C6: empty extracted content produces zero chunks and leaves the
collection untouched — for every file whose extracted content is empty
(a failed `.txt` read, a PDF with no extractable text, an empty file),
no index entry is added. -/
theorem c6_empty_content :
    (∀ name : String, fileChunks name [] = []) ∧
    (∀ (idx : Collection) (f : SrcFile), (extractContent f).1 = [] →
      (processFile idx f).1 = idx) := by
  constructor
  · intro name
    rfl
  · intro idx f h
    simp [processFile, h]

/-- C6 witness: the failed-read text file contributes no entries. -/
theorem c6_empty_content_witness :
    fileChunks "bad.txt" [] = [] ∧
    (extractContent badTxt).1 = [] ∧
    (processFile emptyCollection badTxt).1 = emptyCollection := by
  have h := c6_empty_content
  exact ⟨h.1 "bad.txt", by decide, h.2 emptyCollection badTxt (by decide)⟩

/-! ### C9: synchronization never deletes -/

/-- C9: a synchronization pass only inserts or overwrites by id — every
key not upserted during the pass (entries of removed files, or of a
shrunk file at offsets beyond its new chunk range) is unchanged. -/
theorem c9_no_delete (idx : Collection) (files : List SrcFile) (k : String)
    (h : k ∉ passIds files) :
    (load_files_to_db idx files).1 k = idx k := by
  simp only [load_eq]
  rw [syncCollection_eq_foldl]
  apply foldl_upsert_not_mem
  rw [← passIds_eq]
  exact h

/-- C9 witness: an entry of a file absent from the directory survives a
pass over the current directory unchanged. -/
theorem c9_no_delete_witness :
    "old.txt_part_0" ∉ passIds [newTxt] ∧
    (load_files_to_db (upsert emptyCollection oldEntry) [newTxt]).1 "old.txt_part_0"
      = upsert emptyCollection oldEntry "old.txt_part_0" := by
  have hnm : "old.txt_part_0" ∉ passIds [newTxt] := by decide
  exact ⟨hnm,
    c9_no_delete (upsert emptyCollection oldEntry) [newTxt] "old.txt_part_0" hnm⟩

/-! ### C7: context assembly and source dedup -/

/-- C7: `build_context` formats each (text, metadata) pair as
`"[<source>]: <text>"` and joins the blocks with a blank-line separator;
the returned sources are exactly the distinct source names of the result
set — for metadata sources `["a.txt", "a.txt", "b.pdf"]` they are the
two-element set containing `"a.txt"` and `"b.pdf"`. -/
theorem c7_context_dedup :
    (∀ contexts metadatas : List String,
      (buildContext contexts metadatas).1
        = String.intercalate "\n\n"
            ((contexts.zip metadatas).map (fun p => formatBlock p.1 p.2)) ∧
      (buildContext contexts metadatas).2.Nodup ∧
      (∀ s, s ∈ (buildContext contexts metadatas).2 ↔ s ∈ metadatas)) ∧
    ((buildContext ["t1", "t2", "t3"] ["a.txt", "a.txt", "b.pdf"]).2.length = 2 ∧
      ∀ s, s ∈ (buildContext ["t1", "t2", "t3"] ["a.txt", "a.txt", "b.pdf"]).2
        ↔ (s = "a.txt" ∨ s = "b.pdf")) := by
  constructor
  · intro contexts metadatas
    refine ⟨?_, pySetList_nodup metadatas, fun s => pySetList_mem metadatas s⟩
    show String.intercalate "\n\n"
        ((contexts.zip metadatas).foldl (fun acc p => acc ++ [formatBlock p.1 p.2]) []) = _
    rw [formatLoop_eq (contexts.zip metadatas) [], List.nil_append]
  · constructor
    · decide
    · intro s
      show s ∈ pySetList ["a.txt", "a.txt", "b.pdf"] ↔ _
      rw [pySetList_mem]
      simp only [List.mem_cons, List.not_mem_nil, or_false]
      tauto

/-! ### C8: empty-retrieval path -/

/-- C8: with no search results the context text is empty and the unique
source list is empty, yet the prompt is still assembled from the fixed
template, and that prompt contains the decline instruction verbatim. -/
theorem c8_empty_retrieval (query : String) :
    (buildContext [] []).1 = "" ∧
    (buildContext [] []).2 = [] ∧
    buildPrompt (buildContext [] []).1 query
      = promptP1 ++ "" ++ promptP2 ++ query ++ promptP3 ∧
    ∃ pre post : String,
      buildPrompt (buildContext [] []).1 query = pre ++ (declineMsg ++ post) := by
  refine ⟨rfl, rfl, rfl, promptP1a, promptP1b ++ (promptP2 ++ (query ++ promptP3)), ?_⟩
  show promptP1 ++ "" ++ promptP2 ++ query ++ promptP3 = _
  rw [promptP1_split]
  simp [String.append_assoc]

end App
